import Mathlib

/-!
Shallow embedding of the ARCIUM A.W.R.S reputation storage layer
(src/server/storage.ts together with the table definitions of
src/shared/schema.ts), and proofs about the claims of the spec.

Modelling conventions:
* decimal(10,2) columns are exact decimals; they are modelled as scaled
  integers (Int), preserving exact comparison and ordering semantics;
* timestamp columns are modelled as Int instants;
* nullable columns are Option-valued; a drizzle partial update object
  (Partial of an insert type) wraps every field in a further Option,
  where none means the field was absent from the patch;
* a serial primary key is modelled as list length + 1 (rows of the
  affected tables are never deleted in the code);
* the SQL result order of a select with ORDER BY overall_score DESC and
  no secondary key is realised as a stable descending insertion sort over
  the storage enumeration order of the reputation_scores table: the code
  supplies no tie-break key (storage.ts line 187), so ties surface in
  whatever order the store enumerates the joined rows.
-/

namespace AWRS

/-- Row of the users table (schema.ts lines 7-15). -/
structure User where
  id : Nat
  walletAddress : String
  chain : String
  publicKey : Option String
  pseudonymousId : Option String
  createdAt : Int
  updatedAt : Int
deriving DecidableEq, Repr

/-- Row of the reputation_scores table (schema.ts lines 18-33). -/
structure ReputationScore where
  id : Nat
  userId : Nat
  overallScore : Int
  reputationLevel : String
  daoScore : Option Int
  defiScore : Option Int
  nftScore : Option Int
  bridgeScore : Option Int
  votingScore : Option Int
  scamAvoidanceScore : Option Int
  zkProofHash : Option String
  lastCalculated : Int
  createdAt : Int
  updatedAt : Int
deriving DecidableEq, Repr

/-- The five fields written into a leaderboard row by updateLeaderboard
(storage.ts lines 192-198); id/createdAt/updatedAt are store-generated
defaults, never supplied by the code. -/
structure LeaderboardEntry where
  pseudonymousId : String
  reputationLevel : String
  overallScore : Int
  chain : String
  rank : Nat
deriving DecidableEq, Repr

/-- Row of the zk_proofs table (schema.ts lines 76-86). isValid is a
nullable boolean column whose insert default is true. -/
structure ZkProof where
  id : Nat
  userId : Nat
  proofHash : String
  proofData : Option String
  verificationKey : Option String
  publicInputs : Option String
  isValid : Option Bool
  expiresAt : Option Int
  createdAt : Int
deriving DecidableEq, Repr

/-- The database state: the four tables the claims are about. -/
structure DB where
  users : List User
  reputationScores : List ReputationScore
  leaderboard : List LeaderboardEntry
  zkProofs : List ZkProof
deriving DecidableEq, Repr

/-- InsertReputationScore (schema.ts lines 119-124): userId, overallScore
and reputationLevel are required; the category columns are optional with
store default 0; zkProofHash is optional with no default. The outer
Option marks presence of the field in the insert object. -/
structure InsertReputationScore where
  userId : Nat
  overallScore : Int
  reputationLevel : String
  daoScore : Option (Option Int)
  defiScore : Option (Option Int)
  nftScore : Option (Option Int)
  bridgeScore : Option (Option Int)
  votingScore : Option (Option Int)
  scamAvoidanceScore : Option (Option Int)
  zkProofHash : Option (Option String)
deriving DecidableEq, Repr

/-- A drizzle Partial of InsertReputationScore, as accepted by
updateReputationScore (storage.ts line 146): every field may be absent. -/
structure ScoreUpdates where
  userId : Option Nat
  overallScore : Option Int
  reputationLevel : Option String
  daoScore : Option (Option Int)
  defiScore : Option (Option Int)
  nftScore : Option (Option Int)
  bridgeScore : Option (Option Int)
  votingScore : Option (Option Int)
  scamAvoidanceScore : Option (Option Int)
  zkProofHash : Option (Option String)
deriving DecidableEq, Repr

/-- A drizzle Partial of InsertUser, as accepted by updateUser
(storage.ts line 92). -/
structure UserUpdates where
  walletAddress : Option String
  chain : Option String
  publicKey : Option (Option String)
  pseudonymousId : Option (Option String)
deriving DecidableEq, Repr

/-- InsertZkProof (schema.ts lines 145-148): userId and proofHash are
required, everything else optional; isValid has store default true. -/
structure InsertZkProof where
  userId : Nat
  proofHash : String
  proofData : Option (Option String)
  verificationKey : Option (Option String)
  publicInputs : Option (Option String)
  isValid : Option (Option Bool)
  expiresAt : Option (Option Int)
deriving DecidableEq, Repr

/-- createReputationScore (storage.ts lines 134-144): a plain INSERT of
the supplied values together with fresh lastCalculated/updatedAt
timestamps; the schema puts no unique constraint on user_id
(schema.ts line 20), so nothing stops a second record for the same
identity. Absent category fields receive the column default 0. -/
def createReputationScore (db : DB) (ins : InsertReputationScore) (now : Int) : DB :=
  { db with reputationScores := db.reputationScores ++
      [{ id := db.reputationScores.length + 1
         userId := ins.userId
         overallScore := ins.overallScore
         reputationLevel := ins.reputationLevel
         daoScore := ins.daoScore.getD (some 0)
         defiScore := ins.defiScore.getD (some 0)
         nftScore := ins.nftScore.getD (some 0)
         bridgeScore := ins.bridgeScore.getD (some 0)
         votingScore := ins.votingScore.getD (some 0)
         scamAvoidanceScore := ins.scamAvoidanceScore.getD (some 0)
         zkProofHash := ins.zkProofHash.getD none
         lastCalculated := now
         createdAt := now
         updatedAt := now }] }

/-- The field merge performed by the SET clause of updateReputationScore
(storage.ts lines 148-153): supplied fields overwrite, absent fields keep
their stored values, and lastCalculated/updatedAt are always refreshed. -/
def applyScoreUpdates (r : ReputationScore) (u : ScoreUpdates) (now : Int) : ReputationScore :=
  { r with
    userId := u.userId.getD r.userId
    overallScore := u.overallScore.getD r.overallScore
    reputationLevel := u.reputationLevel.getD r.reputationLevel
    daoScore := u.daoScore.getD r.daoScore
    defiScore := u.defiScore.getD r.defiScore
    nftScore := u.nftScore.getD r.nftScore
    bridgeScore := u.bridgeScore.getD r.bridgeScore
    votingScore := u.votingScore.getD r.votingScore
    scamAvoidanceScore := u.scamAvoidanceScore.getD r.scamAvoidanceScore
    zkProofHash := u.zkProofHash.getD r.zkProofHash
    lastCalculated := now
    updatedAt := now }

/-- updateReputationScore (storage.ts lines 146-157): UPDATE ... WHERE
user_id = uid, applying the merge of applyScoreUpdates to every matching
row. -/
def updateReputationScore (db : DB) (uid : Nat) (u : ScoreUpdates) (now : Int) : DB :=
  { db with reputationScores :=
      db.reputationScores.map (fun r => if r.userId == uid then applyScoreUpdates r u now else r) }

/-- The field merge performed by the SET clause of updateUser
(storage.ts lines 93-100): every supplied field overwrites, updatedAt is
refreshed; no field is excluded and no conflict check is made. -/
def applyUserUpdates (u : User) (p : UserUpdates) (now : Int) : User :=
  { u with
    walletAddress := p.walletAddress.getD u.walletAddress
    chain := p.chain.getD u.chain
    publicKey := p.publicKey.getD u.publicKey
    pseudonymousId := p.pseudonymousId.getD u.pseudonymousId
    updatedAt := now }

/-- updateUser (storage.ts lines 92-102): UPDATE ... WHERE id = i. -/
def updateUser (db : DB) (i : Nat) (p : UserUpdates) (now : Int) : DB :=
  { db with users := db.users.map (fun u => if u.id == i then applyUserUpdates u p now else u) }

/-- The projected row produced by the SELECT of updateLeaderboard
(storage.ts lines 177-187). -/
structure RankedRow where
  pseudonymousId : String
  reputationLevel : String
  overallScore : Int
  chain : String
deriving DecidableEq, Repr

/-- The inner join of reputation_scores with users on user_id = users.id,
filtered to non-null pseudonymous ids (storage.ts lines 184-186). The
users.id column is the primary key, so the matching user is located with
find?. Enumeration follows the reputation_scores table, as the FROM
clause does. -/
def joinRows (db : DB) : List RankedRow :=
  db.reputationScores.filterMap (fun r =>
    match db.users.find? (fun u => u.id == r.userId) with
    | some u =>
      match u.pseudonymousId with
      | some pid =>
        some { pseudonymousId := pid
               reputationLevel := r.reputationLevel
               overallScore := r.overallScore
               chain := u.chain }
      | none => none
    | none => none)

/-- Stable insertion step of the descending sort realising ORDER BY
key DESC: an element is placed before the first element whose key is not
greater, so earlier input elements stay first on ties. -/
def insertScoreDesc {α : Type} (key : α → Int) (x : α) : List α → List α
  | [] => [x]
  | y :: ys => if key y ≤ key x then x :: y :: ys else y :: insertScoreDesc key x ys

/-- Stable descending sort by an integer key. -/
def sortScoreDesc {α : Type} (key : α → Int) : List α → List α
  | [] => []
  | x :: xs => insertScoreDesc key x (sortScoreDesc key xs)

/-- The leaderboard row written for a ranked selection row
(storage.ts lines 192-198): exactly the five projected fields plus the
rank. -/
def entryOfRow (row : RankedRow) (k : Nat) : LeaderboardEntry :=
  { pseudonymousId := row.pseudonymousId
    reputationLevel := row.reputationLevel
    overallScore := row.overallScore
    chain := row.chain
    rank := k }

/-- The insert loop of updateLeaderboard (storage.ts lines 190-199):
element at position i receives rank i + 1. -/
def withRanks : Nat → List RankedRow → List LeaderboardEntry
  | _, [] => []
  | k, row :: rest => entryOfRow row k :: withRanks (k + 1) rest

/-- The first awaited statement of updateLeaderboard (storage.ts line
174): DELETE FROM leaderboard. -/
def clearLeaderboard (db : DB) : DB := { db with leaderboard := [] }

/-- The second phase of updateLeaderboard (storage.ts lines 177-199):
select, sort descending by overall score, insert with ranks 1, 2, ... -/
def populateLeaderboard (db : DB) : DB :=
  { db with leaderboard :=
      withRanks 1 (sortScoreDesc RankedRow.overallScore (joinRows db)) }

/-- updateLeaderboard (storage.ts lines 172-200): two separately awaited
store operations, a full delete followed by the repopulation, with no
enclosing transaction. -/
def updateLeaderboard (db : DB) : DB := populateLeaderboard (clearLeaderboard db)

/-- getLeaderboard (storage.ts lines 160-170): optional chain filter,
ORDER BY overall_score DESC, LIMIT. -/
def getLeaderboard (db : DB) (limit : Nat) (chainFilter : Option String) : List LeaderboardEntry :=
  let base := match chainFilter with
    | some c => db.leaderboard.filter (fun e => e.chain == c)
    | none => db.leaderboard
  (sortScoreDesc LeaderboardEntry.overallScore base).take limit

/-- createZkProof (storage.ts lines 320-326): a plain INSERT; the
proof_hash column carries a unique constraint (schema.ts line 79), so an
insert with an existing hash fails, modelled as none. Absent isValid
receives the column default true; the other optional columns default to
null. -/
def createZkProof (db : DB) (ins : InsertZkProof) (now : Int) : Option DB :=
  if db.zkProofs.any (fun p => p.proofHash == ins.proofHash) then none
  else some { db with zkProofs := db.zkProofs ++
    [{ id := db.zkProofs.length + 1
       userId := ins.userId
       proofHash := ins.proofHash
       proofData := ins.proofData.getD none
       verificationKey := ins.verificationKey.getD none
       publicInputs := ins.publicInputs.getD none
       isValid := (match ins.isValid with | none => some true | some v => v)
       expiresAt := ins.expiresAt.getD none
       createdAt := now }] }

/-- validateZkProof (storage.ts lines 328-339): false for an unknown
hash; false when the stored validity flag is not true (a null flag is
falsy in the source's check); false when an expiry is set and is
strictly before now; true otherwise. -/
def validateZkProof (db : DB) (h : String) (now : Int) : Bool :=
  match db.zkProofs.find? (fun p => p.proofHash == h) with
  | none => false
  | some p =>
    if p.isValid = some true then
      match p.expiresAt with
      | some t => if t < now then false else true
      | none => true
    else false

/-- The pseudonymous id a reputation record contributes to the join:
the pseudonymous id of its owning user, when that user exists and has
one. -/
def scorePid (users : List User) (r : ReputationScore) : Option String :=
  (users.find? (fun u => u.id == r.userId)).bind User.pseudonymousId

/-- The pseudonymous id an identity contributes to the eligible set:
its own, when it is non-null and the identity owns at least one
ReputationRecord. -/
def userPid (scores : List ReputationScore) (u : User) : Option String :=
  match u.pseudonymousId with
  | some p => if scores.any (fun r => r.userId == u.id) then some p else none
  | none => none

/-- The pseudonymous ids of the eligible identities: users with a
non-null pseudonymous id that own at least one ReputationRecord, one
pid per identity, enumerated in users-table order. -/
def eligiblePids (db : DB) : List String :=
  db.users.filterMap (userPid db.reputationScores)

/-! Helper lemmas about the sorting and ranking combinators. -/

theorem perm_insertScoreDesc {α : Type} (key : α → Int) (x : α) (l : List α) :
    List.Perm (insertScoreDesc key x l) (x :: l) := by
  induction l with
  | nil => exact List.Perm.refl _
  | cons y ys ih =>
    by_cases h : key y ≤ key x
    · simp [insertScoreDesc, h]
    · simp only [insertScoreDesc, if_neg h]
      exact (ih.cons y).trans (List.Perm.swap x y ys)

theorem perm_sortScoreDesc {α : Type} (key : α → Int) (l : List α) :
    List.Perm (sortScoreDesc key l) l := by
  induction l with
  | nil => exact List.Perm.refl _
  | cons x xs ih =>
    exact (perm_insertScoreDesc key x (sortScoreDesc key xs)).trans (ih.cons x)

theorem mem_insertScoreDesc {α : Type} {key : α → Int} {x z : α} {l : List α}
    (h : z ∈ insertScoreDesc key x l) : z = x ∨ z ∈ l := by
  have := (perm_insertScoreDesc key x l).mem_iff.mp h
  simpa using this

theorem pairwise_insertScoreDesc {α : Type} {key : α → Int} {x : α} {l : List α}
    (hl : l.Pairwise (fun a b => key b ≤ key a)) :
    (insertScoreDesc key x l).Pairwise (fun a b => key b ≤ key a) := by
  induction l with
  | nil => simp [insertScoreDesc]
  | cons y ys ih =>
    rcases List.pairwise_cons.mp hl with ⟨hy, hys⟩
    by_cases h : key y ≤ key x
    · simp only [insertScoreDesc, if_pos h]
      refine List.pairwise_cons.mpr ⟨?_, hl⟩
      intro z hz
      rcases List.mem_cons.mp hz with hz | hz
      · subst hz; exact h
      · exact le_trans (hy z hz) h
    · simp only [insertScoreDesc, if_neg h]
      refine List.pairwise_cons.mpr ⟨?_, ih hys⟩
      intro z hz
      rcases mem_insertScoreDesc hz with hz | hz
      · subst hz; exact le_of_lt (lt_of_not_le h)
      · exact hy z hz

theorem pairwise_sortScoreDesc {α : Type} (key : α → Int) (l : List α) :
    (sortScoreDesc key l).Pairwise (fun a b => key b ≤ key a) := by
  induction l with
  | nil => simp [sortScoreDesc]
  | cons x xs ih => exact pairwise_insertScoreDesc ih

theorem withRanks_map_pid (k : Nat) (l : List RankedRow) :
    (withRanks k l).map LeaderboardEntry.pseudonymousId
      = l.map RankedRow.pseudonymousId := by
  induction l generalizing k with
  | nil => rfl
  | cons r rs ih => simp [withRanks, entryOfRow, ih]

theorem withRanks_map_rank (k : Nat) (l : List RankedRow) :
    (withRanks k l).map LeaderboardEntry.rank = List.range' k l.length := by
  induction l generalizing k with
  | nil => rfl
  | cons r rs ih => simp [withRanks, entryOfRow, ih, List.range'_succ]

theorem mem_withRanks {k : Nat} {l : List RankedRow} {e : LeaderboardEntry}
    (h : e ∈ withRanks k l) :
    k ≤ e.rank ∧ ∃ row ∈ l, e = entryOfRow row e.rank := by
  induction l generalizing k with
  | nil => simp [withRanks] at h
  | cons r rs ih =>
    simp only [withRanks, List.mem_cons] at h
    rcases h with h | h
    · subst h
      exact ⟨le_refl _, r, List.mem_cons_self r rs, rfl⟩
    · rcases ih h with ⟨hk, row, hrow, he⟩
      exact ⟨le_trans (Nat.le_succ k) hk, row, List.mem_cons_of_mem r hrow, he⟩

theorem pairwise_withRanks {l : List RankedRow} {k : Nat}
    (hl : l.Pairwise (fun a b => b.overallScore ≤ a.overallScore)) :
    (withRanks k l).Pairwise
      (fun e1 e2 => e1.rank < e2.rank ∧ e2.overallScore ≤ e1.overallScore) := by
  induction l generalizing k with
  | nil => simp [withRanks]
  | cons r rs ih =>
    rcases List.pairwise_cons.mp hl with ⟨hr, hrs⟩
    refine List.pairwise_cons.mpr ⟨?_, ih hrs⟩
    intro e he
    rcases mem_withRanks he with ⟨hk, row, hrow, hrow_eq⟩
    constructor
    · exact lt_of_lt_of_le (Nat.lt_succ_self k) hk
    · have : e.overallScore = row.overallScore := by rw [hrow_eq]; rfl
      rw [this]
      exact hr row hrow

/-! A filterMap over a list whose function differs from another one at a
single element, producing an extra value there, yields a permutation with
that value adjoined. Used to peel one reputation record off the
score-side join while removing the corresponding identity from the
user-side eligibility filter. -/

theorem filterMap_perm_extra {α β : Type} [DecidableEq α] {l : List α}
    (hnd : l.Nodup) {a : α} (ha : a ∈ l) {f g : α → Option β} {b : β}
    (hga : g a = some b) (hfa : f a = none)
    (hfg : ∀ x ∈ l, x ≠ a → g x = f x) :
    List.Perm (l.filterMap g) (b :: l.filterMap f) := by
  induction l with
  | nil => cases ha
  | cons x t ih =>
    rcases List.nodup_cons.mp hnd with ⟨hxt, hndt⟩
    by_cases hxa : x = a
    · subst hxa
      rw [List.filterMap_cons_some hga, List.filterMap_cons_none hfa]
      have : t.filterMap g = t.filterMap f := by
        apply List.filterMap_congr
        intro y hy
        exact hfg y (List.mem_cons_of_mem x hy) (fun h => hxt (h ▸ hy))
      rw [this]
    · have hat : a ∈ t := by
        rcases List.mem_cons.mp ha with h | h
        · exact absurd h.symm hxa
        · exact h
      have hgx : g x = f x := hfg x (List.mem_cons_self x t) hxa
      have ihp := ih hndt hat (fun y hy hya => hfg y (List.mem_cons_of_mem x hy) hya)
      cases hfx : f x with
      | none =>
        rw [List.filterMap_cons_none (hgx.trans hfx), List.filterMap_cons_none hfx]
        exact ihp
      | some c =>
        rw [List.filterMap_cons_some (hgx.trans hfx), List.filterMap_cons_some hfx]
        exact (ihp.cons c).trans (List.Perm.swap b c (t.filterMap f))

/-- The row projection of joinRows carries exactly the pseudonymous id
computed by scorePid. -/
theorem joinRows_map_pid (db : DB) :
    (joinRows db).map RankedRow.pseudonymousId
      = db.reputationScores.filterMap (scorePid db.users) := by
  rw [joinRows, List.map_filterMap]
  apply List.filterMap_congr
  intro r _
  unfold scorePid
  cases db.users.find? (fun u => u.id == r.userId) with
  | none => rfl
  | some u => cases hup : u.pseudonymousId <;> simp [hup]

/-- Core counting argument behind the dense-ranking invariant: when user
ids are distinct (the primary key of the users table) and no identity
owns more than one reputation record, the multiset of pseudonymous ids
produced by the score-side join equals the multiset of pseudonymous ids
of the eligible identities. -/
theorem scorePid_perm_userPid (users : List User) :
    ∀ scores : List ReputationScore,
      (users.map User.id).Nodup →
      (∀ u ∈ users, scores.countP (fun r => r.userId == u.id) ≤ 1) →
      List.Perm (scores.filterMap (scorePid users)) (users.filterMap (userPid scores)) := by
  intro scores
  induction scores with
  | nil =>
    intro _ _
    have h : ∀ u ∈ users, userPid [] u = none := by
      intro u _
      unfold userPid
      cases u.pseudonymousId <;> simp
    rw [List.filterMap_nil, List.filterMap_eq_nil_iff.mpr h]
  | cons r rs ih =>
    intro hIds hOne
    have hOne' : ∀ u ∈ users, rs.countP (fun r2 => r2.userId == u.id) ≤ 1 := by
      intro u hu
      have := hOne u hu
      rw [List.countP_cons] at this
      omega
    have hinj : ∀ v ∈ users, ∀ w ∈ users, v.id = w.id → v = w := by
      intro v hv w hw h
      exact List.inj_on_of_nodup_map hIds hv hw h
    cases hfind : users.find? (fun u => u.id == r.userId) with
    | none =>
      have hnone : ∀ u ∈ users, ¬((u.id == r.userId) = true) := List.find?_eq_none.mp hfind
      have hsp : scorePid users r = none := by unfold scorePid; rw [hfind]; rfl
      rw [List.filterMap_cons_none hsp]
      have hcong : ∀ u ∈ users, userPid (r :: rs) u = userPid rs u := by
        intro u hu
        unfold userPid
        cases u.pseudonymousId with
        | none => rfl
        | some p =>
          have hne : (r.userId == u.id) = false := by
            apply beq_eq_false_iff_ne.mpr
            intro h
            exact hnone u hu (by simp [h])
          simp [List.any_cons, hne]
      rw [List.filterMap_congr hcong]
      exact ih hIds hOne'
    | some u0 =>
      have hu0 : u0 ∈ users := List.mem_of_find?_eq_some hfind
      have hid : u0.id = r.userId := by
        have := List.find?_some hfind
        simpa using this
      cases hpid : u0.pseudonymousId with
      | none =>
        have hsp : scorePid users r = none := by
          unfold scorePid; rw [hfind]; simp [hpid]
        rw [List.filterMap_cons_none hsp]
        have hcong : ∀ u ∈ users, userPid (r :: rs) u = userPid rs u := by
          intro u hu
          unfold userPid
          cases hup : u.pseudonymousId with
          | none => rfl
          | some p =>
            have hne : (r.userId == u.id) = false := by
              apply beq_eq_false_iff_ne.mpr
              intro h
              have : u = u0 := hinj u hu u0 hu0 (by omega)
              rw [this, hpid] at hup
              cases hup
            simp [List.any_cons, hne]
        rw [List.filterMap_congr hcong]
        exact ih hIds hOne'
      | some p =>
        have hsp : scorePid users r = some p := by
          unfold scorePid; rw [hfind]; simp [hpid]
        rw [List.filterMap_cons_some hsp]
        have hcount0 : rs.countP (fun r2 => r2.userId == u0.id) = 0 := by
          have hpos : (r.userId == u0.id) = true := by simp [hid]
          have h1 := hOne u0 hu0
          rw [List.countP_cons] at h1
          simp only [hpos, if_true] at h1
          omega
        have hrsnone : ∀ r2 ∈ rs, ¬((r2.userId == u0.id) = true) :=
          List.countP_eq_zero.mp hcount0
        have hga : userPid (r :: rs) u0 = some p := by
          unfold userPid
          rw [hpid]
          have : (r.userId == u0.id) = true := by simp [hid]
          simp [List.any_cons, this]
        have hfa : userPid rs u0 = none := by
          unfold userPid
          rw [hpid]
          have : rs.any (fun r2 => r2.userId == u0.id) = false := by
            rw [List.any_eq_false]
            exact hrsnone
          simp [this]
        have hfg : ∀ x ∈ users, x ≠ u0 → userPid (r :: rs) x = userPid rs x := by
          intro x hx hxne
          unfold userPid
          cases hup : x.pseudonymousId with
          | none => rfl
          | some q =>
            have hne : (r.userId == x.id) = false := by
              apply beq_eq_false_iff_ne.mpr
              intro h
              exact hxne (hinj x hx u0 hu0 (by omega))
            simp [List.any_cons, hne]
        have hextra := filterMap_perm_extra (List.Nodup.of_map _ hIds) hu0 hga hfa hfg
        exact ((ih hIds hOne').cons p).trans hextra.symm

theorem withRanks_length (k : Nat) (l : List RankedRow) :
    (withRanks k l).length = l.length := by
  induction l generalizing k with
  | nil => rfl
  | cons r rs ih => simp [withRanks, ih]

/-! Concrete stores used as counterexamples and witnesses. -/

/-- A reputation record holding only the fields the ranking reads. -/
def mkRec (rid uid : Nat) (score : Int) : ReputationScore :=
  { id := rid, userId := uid, overallScore := score, reputationLevel := "gold"
    daoScore := some 0, defiScore := some 0, nftScore := some 0
    bridgeScore := some 0, votingScore := some 0, scamAvoidanceScore := some 0
    zkProofHash := none, lastCalculated := 0, createdAt := 0, updatedAt := 0 }

/-- An identity with the given id and pseudonymous id. -/
def mkUser (uid : Nat) (w : String) (pid : Option String) (created : Int) : User :=
  { id := uid, walletAddress := w, chain := "ethereum", publicKey := none
    pseudonymousId := pid, createdAt := created, updatedAt := created }

/-- A store in which the single identity owns two ReputationRecords:
reachable in the source because reputation_scores.user_id carries no
unique constraint (schema.ts line 20) and createReputationScore is a
plain insert. -/
def dbDupRec : DB :=
  { users := [mkUser 1 "0xA" (some "p") 1]
    reputationScores := [mkRec 1 1 900, mkRec 2 1 800]
    leaderboard := [], zkProofs := [] }

/-- Claim C1, counterexample: on a database state where one eligible
identity owns two ReputationRecords, rebuild writes two leaderboard
entries for that identity and the rank set is 1..2 although there is
only N = 1 eligible identity, contradicting the claim, which quantifies
over every database state. -/
theorem updateLeaderboard_duplicate_record_cex :
    ((updateLeaderboard dbDupRec).leaderboard.map
        (fun e => (e.pseudonymousId, e.rank))) = [("p", 1), ("p", 2)]
    ∧ (eligiblePids dbDupRec).length = 1 := by
  constructor
  · rfl
  · rfl

/-- Claim C1 (amended): after rebuild, for every database state whose
user ids are pairwise distinct (the users primary key) and in which each
identity owns at most one ReputationRecord (the intended schema
invariant, not enforced by the source), the leaderboard holds exactly
one entry per eligible identity (its multiset of pseudonymous ids equals
the eligible identities' pseudonymous ids), the ranks present are
exactly 1..N for N the number of eligible identities, contiguous and
starting at 1, and along the snapshot ranks strictly increase while
overall scores do not increase. -/
theorem updateLeaderboard_dense_ranking (db : DB)
    (hIds : (db.users.map User.id).Nodup)
    (hOne : ∀ u ∈ db.users,
      db.reputationScores.countP (fun r => r.userId == u.id) ≤ 1) :
    List.Perm ((updateLeaderboard db).leaderboard.map LeaderboardEntry.pseudonymousId)
        (eligiblePids db)
    ∧ (updateLeaderboard db).leaderboard.map LeaderboardEntry.rank
        = List.range' 1 (eligiblePids db).length
    ∧ (updateLeaderboard db).leaderboard.Pairwise
        (fun e1 e2 => e1.rank < e2.rank ∧ e2.overallScore ≤ e1.overallScore) := by
  have hlb : (updateLeaderboard db).leaderboard
      = withRanks 1 (sortScoreDesc RankedRow.overallScore (joinRows db)) := rfl
  have hjoin := scorePid_perm_userPid db.users db.reputationScores hIds hOne
  have hperm : List.Perm
      ((updateLeaderboard db).leaderboard.map LeaderboardEntry.pseudonymousId)
      (eligiblePids db) := by
    rw [hlb, withRanks_map_pid]
    have hp := (perm_sortScoreDesc RankedRow.overallScore (joinRows db)).map
      RankedRow.pseudonymousId
    rw [joinRows_map_pid] at hp
    exact hp.trans hjoin
  refine ⟨hperm, ?_, ?_⟩
  · have hlen : (sortScoreDesc RankedRow.overallScore (joinRows db)).length
        = (eligiblePids db).length := by
      rw [(perm_sortScoreDesc RankedRow.overallScore (joinRows db)).length_eq]
      have h := hjoin.length_eq
      rw [← joinRows_map_pid] at h
      simpa [eligiblePids] using h
    rw [hlb, withRanks_map_rank, hlen]
  · rw [hlb]
    exact pairwise_withRanks (pairwise_sortScoreDesc RankedRow.overallScore (joinRows db))

/-- A well-formed two-identity store for exercising the ranking
invariant. -/
def dbRankW : DB :=
  { users := [mkUser 1 "0xA" (some "pA") 1, mkUser 2 "0xB" (some "pB") 2]
    reputationScores := [mkRec 1 2 900, mkRec 2 1 850]
    leaderboard := [], zkProofs := [] }

/-- Witness for claim C1: updateLeaderboard_dense_ranking applied at a concrete store. -/
theorem updateLeaderboard_dense_ranking_witness :
    ((dbRankW.users.map User.id).Nodup
      ∧ ∀ u ∈ dbRankW.users,
          dbRankW.reputationScores.countP (fun r => r.userId == u.id) ≤ 1)
    ∧ (List.Perm ((updateLeaderboard dbRankW).leaderboard.map
          LeaderboardEntry.pseudonymousId) (eligiblePids dbRankW)
      ∧ (updateLeaderboard dbRankW).leaderboard.map LeaderboardEntry.rank
          = List.range' 1 (eligiblePids dbRankW).length
      ∧ (updateLeaderboard dbRankW).leaderboard.Pairwise
          (fun e1 e2 => e1.rank < e2.rank ∧ e2.overallScore ≤ e1.overallScore)) :=
  ⟨⟨by decide, by decide⟩,
    updateLeaderboard_dense_ranking dbRankW (by decide) (by decide)⟩

/-- Claim C9: rebuild is idempotent. updateLeaderboard replaces the
leaderboard table with a value computed only from the users and
reputation_scores tables, which it leaves untouched, so a second
consecutive rebuild recomputes and writes the identical snapshot, rank
assignments included. -/
theorem updateLeaderboard_idempotent (db : DB) :
    updateLeaderboard (updateLeaderboard db) = updateLeaderboard db := rfl

/-- A store with a previously published non-empty snapshot and one
eligible identity. -/
def dbSnap : DB :=
  { users := [mkUser 1 "0xA" (some "pOld") 1]
    reputationScores := [mkRec 1 1 900]
    leaderboard := [{ pseudonymousId := "pOld", reputationLevel := "gold"
                      overallScore := 900, chain := "ethereum", rank := 1 }]
    zkProofs := [] }

/-- Claim C2, failing execution: updateLeaderboard is the composition of
two separately awaited, unguarded store statements (storage.ts lines 174
and 190-199, no transaction), so a concurrent reader scheduled between
the delete and the first insert observes the intermediate state, whose
leaderboard is empty even though the snapshot was non-empty before the
rebuild and is non-empty after it. -/
theorem updateLeaderboard_reader_sees_empty :
    updateLeaderboard dbSnap = populateLeaderboard (clearLeaderboard dbSnap)
    ∧ dbSnap.leaderboard ≠ []
    ∧ getLeaderboard (clearLeaderboard dbSnap) 100 none = []
    ∧ (updateLeaderboard dbSnap).leaderboard ≠ [] := by
  refine ⟨rfl, ?_, rfl, ?_⟩
  · decide
  · decide

/-- A proof artifact whose expiry equals the evaluation instant. -/
def dbExpiry : DB :=
  { users := [], reputationScores := [], leaderboard := []
    zkProofs := [{ id := 1, userId := 1, proofHash := "0xHASH1"
                   proofData := none, verificationKey := none, publicInputs := none
                   isValid := some true, expiresAt := some 100, createdAt := 0 }] }

/-- Claim C3, counterexample: the source tests expiry with a strict
comparison (storage.ts line 336), so a proof whose expiry timestamp
equals the current time validates as true, where the claim demands false
for an expiry at or before now. -/
theorem validateZkProof_expiry_boundary_cex :
    (dbExpiry.zkProofs.map ZkProof.expiresAt) = [some 100]
    ∧ validateZkProof dbExpiry "0xHASH1" 100 = true := by
  refine ⟨rfl, rfl⟩

/-- Claim C3 (amended): validateZkProof returns true exactly when the
hash is known, the stored validity flag is true, and any stored expiry
is not strictly before the current time; hence it returns false (and
never throws, being a total function) for an unknown hash, false for a
flag that is not true, false for an expiry strictly before now, and
true when the flag is true and the expiry is null, in the future, or
exactly equal to now. -/
theorem validateZkProof_characterisation (db : DB) (h : String) (now : Int) :
    validateZkProof db h now = true ↔
      ∃ p, db.zkProofs.find? (fun q => q.proofHash == h) = some p
        ∧ p.isValid = some true
        ∧ ∀ t, p.expiresAt = some t → now ≤ t := by
  cases hf : db.zkProofs.find? (fun q => q.proofHash == h) with
  | none =>
    have hval : validateZkProof db h now = false := by
      unfold validateZkProof; rw [hf]
    rw [hval]
    simp
  | some p =>
    have hval : validateZkProof db h now
        = (if p.isValid = some true then
            (match p.expiresAt with
              | some t => if t < now then false else true
              | none => true)
          else false) := by
      unfold validateZkProof; rw [hf]
    rw [hval]
    by_cases hv : p.isValid = some true
    · rw [if_pos hv]
      cases he : p.expiresAt with
      | none => simp [hv, he]
      | some t =>
        show (if t < now then false else true) = true ↔
          ∃ p2, some p = some p2 ∧ p2.isValid = some true
            ∧ ∀ t2, p2.expiresAt = some t2 → now ≤ t2
        by_cases hlt : t < now
        · rw [if_pos hlt]
          simp only [Bool.false_eq_true, false_iff]
          rintro ⟨p2, hp2, -, hall⟩
          have : p2 = p := (Option.some.inj hp2).symm
          subst this
          have := hall t he
          omega
        · rw [if_neg hlt]
          simp only [true_iff]
          refine ⟨p, rfl, hv, ?_⟩
          intro t2 ht2
          rw [he] at ht2
          have : t2 = t := (Option.some.inj ht2).symm
          subst this
          omega
    · rw [if_neg hv]
      simp only [Bool.false_eq_true, false_iff]
      rintro ⟨p2, hp2, hp2v, -⟩
      have : p2 = p := (Option.some.inj hp2).symm
      subst this
      exact hv hp2v

/-- Score rows inserted with B's record before A's although A registered
first: a legal enumeration order of the store, since the source's select
orders by overall score only (storage.ts line 187). -/
def dbTieBA : DB :=
  { users := [mkUser 1 "0xA" (some "pidA") 1, mkUser 2 "0xB" (some "pidB") 2,
              mkUser 3 "0xC" (some "pidC") 3]
    reputationScores := [mkRec 1 2 900, mkRec 2 1 900, mkRec 3 3 850]
    leaderboard := [], zkProofs := [] }

/-- The same population with the records enumerated in registration
order. -/
def dbTieAB : DB :=
  { users := [mkUser 1 "0xA" (some "pidA") 1, mkUser 2 "0xB" (some "pidB") 2,
              mkUser 3 "0xC" (some "pidC") 3]
    reputationScores := [mkRec 1 1 900, mkRec 2 2 900, mkRec 3 3 850]
    leaderboard := [], zkProofs := [] }

/-- Claim C4, counterexample: the source applies no secondary sort key,
so ties in overall score keep the store's enumeration order of the
reputation records. With A (score 900, registered first, id 1) and B
(score 900, registered second, id 2) but B's record enumerated first,
rebuild assigns B rank 1 and A rank 2, where the claim requires A=1,
B=2 in every rebuild. -/
theorem updateLeaderboard_tie_order_cex :
    ((updateLeaderboard dbTieBA).leaderboard.map
        (fun e => (e.pseudonymousId, e.rank)))
      = [("pidB", 1), ("pidA", 2), ("pidC", 3)] := by
  rfl

/-- Claim C4 (amended): every rebuild sorts the selection by overall
score descending; ties keep the store's enumeration order of the
reputation records rather than identity creation order, so the scenario
rank assignment A=1, B=2, C=3 holds when the records are enumerated in
registration order. -/
theorem updateLeaderboard_sort_desc (db : DB) :
    ((updateLeaderboard db).leaderboard.Pairwise
        (fun e1 e2 => e2.overallScore ≤ e1.overallScore))
    ∧ ((updateLeaderboard dbTieAB).leaderboard.map
        (fun e => (e.pseudonymousId, e.rank)))
      = [("pidA", 1), ("pidB", 2), ("pidC", 3)] := by
  constructor
  · have h := pairwise_withRanks (k := 1)
      (pairwise_sortScoreDesc RankedRow.overallScore (joinRows db))
    exact h.imp (fun hab => hab.2)
  · rfl

/-- A partial update supplying only the defiScore field. -/
def defiOnlyUpdates (d : Option Int) : ScoreUpdates :=
  { userId := none, overallScore := none, reputationLevel := none
    daoScore := none, defiScore := some d, nftScore := none
    bridgeScore := none, votingScore := none, scamAvoidanceScore := none
    zkProofHash := none }

/-- Claim C5: updateReputationScore touches only the rows of the given
identity, and on each it overwrites exactly the supplied fields plus the
refreshed timestamps: every category score, the overall score, the level
and the proof hash keep their stored values whenever absent from the
patch, and a patch supplying only defiScore yields the old record with
just defiScore and the timestamps replaced. -/
theorem updateReputationScore_frame (db : DB) (uid : Nat) (u : ScoreUpdates) (now : Int) :
    ((updateReputationScore db uid u now).reputationScores
        = db.reputationScores.map
            (fun r => if r.userId == uid then applyScoreUpdates r u now else r))
    ∧ (∀ r : ReputationScore,
        (applyScoreUpdates r u now).lastCalculated = now
        ∧ (u.daoScore = none → (applyScoreUpdates r u now).daoScore = r.daoScore)
        ∧ (u.defiScore = none → (applyScoreUpdates r u now).defiScore = r.defiScore)
        ∧ (u.nftScore = none → (applyScoreUpdates r u now).nftScore = r.nftScore)
        ∧ (u.bridgeScore = none →
            (applyScoreUpdates r u now).bridgeScore = r.bridgeScore)
        ∧ (u.votingScore = none →
            (applyScoreUpdates r u now).votingScore = r.votingScore)
        ∧ (u.scamAvoidanceScore = none →
            (applyScoreUpdates r u now).scamAvoidanceScore = r.scamAvoidanceScore)
        ∧ (u.overallScore = none →
            (applyScoreUpdates r u now).overallScore = r.overallScore)
        ∧ (u.reputationLevel = none →
            (applyScoreUpdates r u now).reputationLevel = r.reputationLevel)
        ∧ (u.zkProofHash = none →
            (applyScoreUpdates r u now).zkProofHash = r.zkProofHash))
    ∧ (∀ r : ReputationScore, ∀ d : Option Int,
        applyScoreUpdates r (defiOnlyUpdates d) now
          = { r with defiScore := d, lastCalculated := now, updatedAt := now }) := by
  refine ⟨rfl, ?_, ?_⟩
  · intro r
    refine ⟨rfl, ?_, ?_, ?_, ?_, ?_, ?_, ?_, ?_, ?_⟩ <;>
      (intro h; simp [applyScoreUpdates, h])
  · intro r d
    rfl

/-- A record and store for exercising the frame condition. -/
def dbFrameW : DB :=
  { users := [mkUser 1 "0xW" (some "pW") 1]
    reputationScores := [mkRec 1 1 500]
    leaderboard := [], zkProofs := [] }

/-- Witness for claim C5: updateReputationScore_frame applied to a
defiScore-only patch on a concrete record. -/
theorem updateReputationScore_frame_witness :
    applyScoreUpdates (mkRec 1 1 500) (defiOnlyUpdates (some 250)) 7
      = { mkRec 1 1 500 with
          defiScore := some 250, lastCalculated := 7, updatedAt := 7 } :=
  (updateReputationScore_frame dbFrameW 1 (defiOnlyUpdates (some 250)) 7).2.2
    (mkRec 1 1 500) (some 250)

/-- A store holding one identity and no reputation records yet. -/
def dbOneUser : DB :=
  { users := [mkUser 1 "0xA" (some "p6") 1]
    reputationScores := [], leaderboard := [], zkProofs := [] }

/-- An insert payload for identity 1. -/
def insRec1 : InsertReputationScore :=
  { userId := 1, overallScore := 900, reputationLevel := "gold"
    daoScore := none, defiScore := none, nftScore := none
    bridgeScore := none, votingScore := none, scamAvoidanceScore := none
    zkProofHash := none }

/-- Claim C6, failing execution: createReputationScore is a plain insert
and reputation_scores.user_id has no unique constraint (schema.ts line
20), so two consecutive creations for the same identity leave the store
with two ReputationRecords owned by identity 1, violating the invariant
the claim states. -/
theorem createReputationScore_duplicate_identity :
    ((createReputationScore (createReputationScore dbOneUser insRec1 1)
        insRec1 2).reputationScores.countP (fun r => r.userId == 1)) = 2 := by
  rfl

/-- A registered identity with wallet address 0xAAA. -/
def dbWallet : DB :=
  { users := [mkUser 1 "0xAAA" (some "anon1") 0]
    reputationScores := [], leaderboard := [], zkProofs := [] }

/-- A patch attempting to change the wallet address. -/
def walletPatch : UserUpdates :=
  { walletAddress := some "0xBBB", chain := none
    publicKey := none, pseudonymousId := none }

/-- Claim C7, counterexample: updateUser spreads the whole patch into
the SET clause (storage.ts lines 95-98) with no immutability check and
no error channel, so a patch supplying a new wallet address silently
replaces the stored one instead of failing with a ConflictError and
leaving the identity unchanged. -/
theorem updateUser_wallet_mutation_cex :
    dbWallet.users.map User.walletAddress = ["0xAAA"]
    ∧ (updateUser dbWallet 1 walletPatch 5).users.map User.walletAddress
        = ["0xBBB"] := by
  exact ⟨rfl, rfl⟩

/-- A patch supplying only the publicKey field. -/
def publicKeyOnly (pk : Option String) : UserUpdates :=
  { walletAddress := none, chain := none
    publicKey := some pk, pseudonymousId := none }

/-- Claim C7 (amended): updateUser applies whatever fields the patch
supplies, raising no error; the wallet address and the pseudonymous id
are preserved exactly when the patch omits them, so a patch touching
only the mutable publicKey field leaves both unchanged, but the
operation itself enforces no immutability. -/
theorem updateUser_patch_semantics (db : DB) (i : Nat) (p : UserUpdates) (now : Int) :
    ((updateUser db i p now).users
        = db.users.map (fun u => if u.id == i then applyUserUpdates u p now else u))
    ∧ (∀ u : User,
        (p.walletAddress = none →
          (applyUserUpdates u p now).walletAddress = u.walletAddress)
        ∧ (p.pseudonymousId = none →
          (applyUserUpdates u p now).pseudonymousId = u.pseudonymousId))
    ∧ (∀ u : User, ∀ pk : Option String,
        applyUserUpdates u (publicKeyOnly pk) now
          = { u with publicKey := pk, updatedAt := now }) := by
  refine ⟨rfl, ?_, ?_⟩
  · intro u
    refine ⟨?_, ?_⟩ <;> (intro h; simp [applyUserUpdates, h])
  · intro u pk
    rfl

/-- Witness for claim C7 as amended: updateUser_patch_semantics applied
to a publicKey-only patch on a concrete identity. -/
theorem updateUser_patch_semantics_witness :
    applyUserUpdates (mkUser 1 "0xAAA" (some "anon1") 0)
        (publicKeyOnly (some "pk1")) 9
      = { mkUser 1 "0xAAA" (some "anon1") 0 with
          publicKey := some "pk1", updatedAt := 9 } :=
  (updateUser_patch_semantics dbWallet 1 (publicKeyOnly (some "pk1")) 9).2.2
    (mkUser 1 "0xAAA" (some "anon1") 0) (some "pk1")

/-- Claim C8: every leaderboard entry written by rebuild is built from
exactly the pseudonymous id and chain of an eligible identity together
with the level and overall score of one of its reputation records (and
the rank); the entry carries no wallet address, no internal identity id
and no other identity-linked field. -/
theorem updateLeaderboard_snapshot_fields (db : DB) (e : LeaderboardEntry)
    (he : e ∈ (updateLeaderboard db).leaderboard) :
    ∃ u ∈ db.users, ∃ r ∈ db.reputationScores,
      r.userId = u.id
      ∧ u.pseudonymousId = some e.pseudonymousId
      ∧ e.reputationLevel = r.reputationLevel
      ∧ e.overallScore = r.overallScore
      ∧ e.chain = u.chain := by
  have hlb : (updateLeaderboard db).leaderboard
      = withRanks 1 (sortScoreDesc RankedRow.overallScore (joinRows db)) := rfl
  rw [hlb] at he
  rcases mem_withRanks he with ⟨-, row, hrow, hrow_eq⟩
  have hrow_mem : row ∈ joinRows db :=
    (perm_sortScoreDesc RankedRow.overallScore (joinRows db)).mem_iff.mp hrow
  unfold joinRows at hrow_mem
  rcases List.mem_filterMap.mp hrow_mem with ⟨r, hr, hfr⟩
  cases hfind : db.users.find? (fun u => u.id == r.userId) with
  | none => rw [hfind] at hfr; cases hfr
  | some u =>
    rw [hfind] at hfr
    have hfr2 : (match u.pseudonymousId with
        | some pid =>
          some ({ pseudonymousId := pid
                  reputationLevel := r.reputationLevel
                  overallScore := r.overallScore
                  chain := u.chain } : RankedRow)
        | none => none) = some row := hfr
    cases hup : u.pseudonymousId with
    | none => rw [hup] at hfr2; cases hfr2
    | some pid =>
      rw [hup] at hfr2
      have hrw : row = { pseudonymousId := pid
                         reputationLevel := r.reputationLevel
                         overallScore := r.overallScore
                         chain := u.chain } := (Option.some.inj hfr2).symm
      have hu : u ∈ db.users := List.mem_of_find?_eq_some hfind
      have hid : u.id = r.userId := by
        have := List.find?_some hfind
        simpa using this
      have hps : e.pseudonymousId = row.pseudonymousId := by rw [hrow_eq]; rfl
      have hlv : e.reputationLevel = row.reputationLevel := by rw [hrow_eq]; rfl
      have hsc : e.overallScore = row.overallScore := by rw [hrow_eq]; rfl
      have hch : e.chain = row.chain := by rw [hrow_eq]; rfl
      rw [hrw] at hps hlv hsc hch
      exact ⟨u, hu, r, hr, hid.symm, by rw [hup, hps], hlv, hsc, hch⟩

/-- The entry rebuild writes for the single identity of dbSnap. -/
def entryW : LeaderboardEntry :=
  { pseudonymousId := "pOld", reputationLevel := "gold"
    overallScore := 900, chain := "ethereum", rank := 1 }

/-- Witness for claim C8: updateLeaderboard_snapshot_fields applied at a concrete store. -/
theorem updateLeaderboard_snapshot_fields_witness :
    entryW ∈ (updateLeaderboard dbSnap).leaderboard
    ∧ ∃ u ∈ dbSnap.users, ∃ r ∈ dbSnap.reputationScores,
        r.userId = u.id
        ∧ u.pseudonymousId = some entryW.pseudonymousId
        ∧ entryW.reputationLevel = r.reputationLevel
        ∧ entryW.overallScore = r.overallScore
        ∧ entryW.chain = u.chain :=
  ⟨by decide, updateLeaderboard_snapshot_fields dbSnap entryW (by decide)⟩

theorem find?_append_of_none {α : Type} {p : α → Bool} {l1 l2 : List α}
    (h : l1.find? p = none) : (l1 ++ l2).find? p = l2.find? p := by
  rw [List.find?_append, h, Option.none_or]

/-- Claim C10: a proof artifact created through createZkProof without an
explicit validity flag is stored with the flag defaulted to true
(schema.ts line 83), so immediately after a successful creation with a
null expiry, or an expiry strictly in the future of the evaluation
instant, validateZkProof accepts its hash. -/
theorem createZkProof_default_valid (db : DB) (ins : InsertZkProof)
    (now nowV : Int) (db2 : DB)
    (hc : createZkProof db ins now = some db2)
    (hv : ins.isValid = none)
    (he : ins.expiresAt = none ∨ ins.expiresAt = some none
      ∨ ∃ t, ins.expiresAt = some (some t) ∧ nowV < t) :
    (∃ p, db2.zkProofs.find? (fun q => q.proofHash == ins.proofHash) = some p
      ∧ p.isValid = some true)
    ∧ validateZkProof db2 ins.proofHash nowV = true := by
  unfold createZkProof at hc
  by_cases hdup : db.zkProofs.any (fun p => p.proofHash == ins.proofHash)
  · rw [if_pos hdup] at hc; cases hc
  · rw [if_neg hdup] at hc
    have hdb2 := (Option.some.inj hc).symm
    have hold : db.zkProofs.find? (fun q => q.proofHash == ins.proofHash) = none := by
      rw [List.find?_eq_none]
      intro q hq hmatch
      exact hdup (List.any_eq_true.mpr ⟨q, hq, hmatch⟩)
    have hfind : db2.zkProofs.find? (fun q => q.proofHash == ins.proofHash)
        = some { id := db.zkProofs.length + 1
                 userId := ins.userId
                 proofHash := ins.proofHash
                 proofData := ins.proofData.getD none
                 verificationKey := ins.verificationKey.getD none
                 publicInputs := ins.publicInputs.getD none
                 isValid := (match ins.isValid with | none => some true | some v => v)
                 expiresAt := ins.expiresAt.getD none
                 createdAt := now } := by
      rw [hdb2]
      show (db.zkProofs ++ [_]).find? (fun q : ZkProof => q.proofHash == ins.proofHash) = _
      rw [find?_append_of_none hold]
      simp [List.find?_cons]
    have hvalid : (match ins.isValid with
        | none => some true | some v => v) = some true := by rw [hv]
    refine ⟨⟨_, hfind, hvalid⟩, ?_⟩
    unfold validateZkProof
    rw [hfind]
    show (if (match ins.isValid with | none => some true | some v => v) = some true
        then (match ins.expiresAt.getD none with
          | some t => if t < nowV then false else true
          | none => true)
        else false) = true
    rw [hvalid, if_pos rfl]
    rcases he with he | he | ⟨t, he, ht⟩
    · rw [he]; rfl
    · rw [he]; rfl
    · rw [he]
      show (if t < nowV then false else true) = true
      rw [if_neg (by omega)]

/-- An insert payload with no validity flag and no expiry. -/
def insProofW : InsertZkProof :=
  { userId := 1, proofHash := "hW", proofData := none
    verificationKey := none, publicInputs := none
    isValid := none, expiresAt := none }

/-- An empty store for the proof-creation witness. -/
def dbEmptyW : DB :=
  { users := [], reputationScores := [], leaderboard := [], zkProofs := [] }

/-- Witness for claim C10: createZkProof_default_valid applied to a
creation in an empty store, validated immediately afterwards. -/
theorem createZkProof_default_valid_witness :
    validateZkProof ((createZkProof dbEmptyW insProofW 0).getD dbEmptyW) "hW" 5
      = true :=
  (createZkProof_default_valid dbEmptyW insProofW 0 5
    ((createZkProof dbEmptyW insProofW 0).getD dbEmptyW)
    rfl rfl (Or.inl rfl)).2

end AWRS
